import Mathlib

set_option maxHeartbeats 1000000

namespace SkyormPostgres

/-! # Shallow embedding of skyorm/postgres (src/postgres.go)

The provider translates an ORM data-access contract into parameterized
postgres SQL.  The embedding below mirrors the pure, statement-building part
of `src/postgres.go`: the condition compiler (`parseCond`,
`parseRegularCond`, `parseCondChildren`), the statement builders
(`buildWhere`, `buildUpdateProps`, `buildQueryProperties`,
`buildInsertPlaceholders`) and the pure query-assembly parts of the public
operations `Put`, `Find` and `Update`.  Go's mutable placeholder counter
(`n *int`) is modelled by explicit state passing: every function that takes
`n *int` in Go takes a `Nat` here and returns the updated counter. -/

/-- Dynamically typed Go value (an `interface{}` value) as used by this
provider: primary keys, bound parameters, scanned results.  Each constructor
records the Go dynamic type.  Float payloads are embedded as rationals; the
only operation the source performs on a float is comparison with zero, which
the embedding preserves for every finite float value. -/
inductive GoVal where
  | goNil : GoVal
  | goString : String → GoVal
  | goInt : Int → GoVal
  | goInt8 : Int → GoVal
  | goInt16 : Int → GoVal
  | goInt32 : Int → GoVal
  | goInt64 : Int → GoVal
  | goUint : Nat → GoVal
  | goUint8 : Nat → GoVal
  | goUint16 : Nat → GoVal
  | goUint32 : Nat → GoVal
  | goUint64 : Nat → GoVal
  | goFloat32 : ℚ → GoVal
  | goFloat64 : ℚ → GoVal
  | goOther : GoVal
deriving DecidableEq

/-- `isPkEmpty` (postgres.go:167-179).  The Go type switch groups several
numeric types in a single case arm and then asserts the widest type of the
arm (`pk.(int64)`, `pk.(uint64)`, `pk.(float64)`); in Go such an assertion
panics whenever the dynamic type is one of the *other* types of the arm.
`none` models that panic; `some b` models a normal return of `b`.  A value
matching no case arm falls through to `return false`. -/
def isPkEmpty : GoVal → Option Bool
  | .goString s => some (s == "")
  | .goInt _ => none
  | .goInt8 _ => none
  | .goInt16 _ => none
  | .goInt32 _ => none
  | .goInt64 v => some (v == 0)
  | .goUint _ => none
  | .goUint8 _ => none
  | .goUint16 _ => none
  | .goUint32 _ => none
  | .goUint64 v => some (v == 0)
  | .goFloat32 _ => none
  | .goFloat64 v => some (v == 0)
  | .goNil => some false
  | .goOther => some false

/-- Decimal digit character, as produced by Go's `strconv.Itoa`. -/
def digitChar : Nat → Char
  | 0 => '0'
  | 1 => '1'
  | 2 => '2'
  | 3 => '3'
  | 4 => '4'
  | 5 => '5'
  | 6 => '6'
  | 7 => '7'
  | 8 => '8'
  | _ => '9'

/-- Fuelled core of decimal rendering (the fuel argument only serves
structural termination; `itoa` supplies enough fuel for it never to run
out). -/
def itoaCore : Nat → Nat → List Char → List Char
  | 0, _, acc => acc
  | fuel + 1, n, acc =>
      if n < 10 then digitChar n :: acc
      else itoaCore fuel (n / 10) (digitChar (n % 10) :: acc)

/-- Go's `strconv.Itoa` on a non-negative value: decimal digits, no sign. -/
def itoa (n : Nat) : String :=
  ⟨itoaCore (n + 1) n []⟩

/-- Go's decimal rendering of a (possibly negative) `int`, as produced by
`strconv.Itoa` and by the `%d` verb of `fmt.Sprintf`. -/
def itoaInt (i : Int) : String :=
  if i < 0 then "-" ++ itoa i.natAbs else itoa i.toNat

/-- Go's `strings.Join(parts, sep)`: the parts concatenated with `sep`
between consecutive parts. -/
def goJoin (sep : String) : List String → String
  | [] => ""
  | [s] => s
  | s :: rest => s ++ sep ++ goJoin sep rest

/-- Core of Go's `fmt.Sprintf` restricted to the `%s` verb, which is all the
source uses with string arguments (postgres.go builds every statement from
`%s` templates; `%d` appears only in `Find`'s LIMIT/OFFSET suffix and is
modelled there by `itoaInt`).  On a missing argument Go renders a
`%!s(MISSING)` marker; leftover arguments (never produced by the source's
call sites, which construct formats with exactly matching argument counts)
are dropped. -/
def sprintfAux : List Char → List String → List Char
  | [], _ => []
  | c :: rest, args =>
      if c = '%' then
        match rest, args with
        | 's' :: rest2, a :: args2 => a.data ++ sprintfAux rest2 args2
        | 's' :: rest2, [] => ("%!s(MISSING)").data ++ sprintfAux rest2 []
        | rest3, _ => c :: sprintfAux rest3 args
      else c :: sprintfAux rest args

/-- Go's `fmt.Sprintf` on a `%s`-only format. -/
def goSprintf (format : String) (args : List String) : String :=
  ⟨sprintfAux format.data args⟩

/-- The kind of a combinator condition: `skyorm.CondTypeAnd` or
`skyorm.CondTypeOr`. -/
inductive CombKind where
  | cAnd : CombKind
  | cOr : CombKind
deriving DecidableEq

/-- The kind of a leaf comparison.  The first six constructors are
`skyorm.CondTypeEq/Neq/Lt/Lte/Gt/Gte`, the ones `parseRegularCond` handles;
`unsupported` stands for any other `skyorm.CondType` value a leaf might
carry, which falls through `parseRegularCond`'s switch. -/
inductive LeafKind where
  | eq : LeafKind
  | neq : LeafKind
  | lt : LeafKind
  | lte : LeafKind
  | gt : LeafKind
  | gte : LeafKind
  | unsupported : LeafKind
deriving DecidableEq

mutual
/-- A condition tree (`skyorm.Cond`).  `null` is Go's nil interface value,
which `parseCond` checks for explicitly; a combinator carries its ordered
child list (`Children()`), a leaf carries its property name (`Prop().Name()`)
and bound value (`Val()`). -/
inductive Cond where
  | null : Cond
  | comb : CombKind → CondList → Cond
  | leaf : LeafKind → String → GoVal → Cond
deriving DecidableEq

/-- A Go slice of conditions (`[]skyorm.Cond`), kept as a mutual inductive so
that the compiler's recursion over children is structural. -/
inductive CondList where
  | nil : CondList
  | cons : Cond → CondList → CondList
deriving DecidableEq
end

/-- `parseRegularCond` (postgres.go:261-278): compiles one leaf comparison.
Go increments the shared counter first (`*n++`) and then renders the
position `*n - 1`; the returned `Nat` is the updated counter.  A kind
outside the six supported operators falls through the switch to
`return "", nil`. -/
def parseRegularCond (k : LeafKind) (prop : String) (val : GoVal) (n : Nat) :
    String × GoVal × Nat :=
  let m := n + 1
  match k with
  | .eq => (prop ++ " = $" ++ itoa (m - 1), val, m)
  | .neq => (prop ++ " <> $" ++ itoa (m - 1), val, m)
  | .lt => (prop ++ " < $" ++ itoa (m - 1), val, m)
  | .lte => (prop ++ " <= $" ++ itoa (m - 1), val, m)
  | .gt => (prop ++ " > $" ++ itoa (m - 1), val, m)
  | .gte => (prop ++ " >= $" ++ itoa (m - 1), val, m)
  | .unsupported => ("", GoVal.goNil, m)

mutual
/-- `parseCond` (postgres.go:234-259) with the counter made explicit: given
a condition and the current counter it returns (fragment, values, updated
counter).  The Go `if n == nil { n = newN() }` default (start at 1) lives in
`parseCondOpt` below.  The combinator case inlines the one-line body of
`parseCondChildren` (postgres.go:280-289) — wrapping the joined child
fragments in parentheses — so that the mutual recursion stays structural;
`parseCondChildren` is recovered verbatim below and
`parseCond_comb_eq_children` states that this inlining is faithful. -/
def parseCond : Cond → Nat → String × List GoVal × Nat
  | .null, n => ("", [], n)
  | .comb ck children, n =>
      let sep := match ck with
        | .cAnd => " AND "
        | .cOr => " OR "
      let r := parseCondList children n
      let s := "(" ++ goJoin sep r.1 ++ ")"
      let sl := [s]
      let vl := r.2.1
      if vl.length == 0 then ("", vl, r.2.2)
      else (goJoin sep sl, vl, r.2.2)
  | .leaf k prop val, n =>
      let r := parseRegularCond k prop val n
      (r.1, [r.2.1], r.2.2)
termination_by structural c => c

/-- The loop of `parseCondChildren` (postgres.go:283-287): left-to-right
over the children, threading the shared counter, accumulating the fragment
slice `cl` — every child fragment, empty or not — and the concatenated value
slice `vl`. -/
def parseCondList : CondList → Nat → List String × List GoVal × Nat
  | .nil, n => ([], [], n)
  | .cons c cs, n =>
      let r := parseCond c n
      let rest := parseCondList cs r.2.2
      (r.1 :: rest.1, r.2.1 ++ rest.2.1, rest.2.2)
termination_by structural cs => cs
end

/-- `parseCondChildren` (postgres.go:280-289): compiles every child with the
shared counter, joins all the child fragments with `sep`, wraps the join in
parentheses and returns the concatenated child values. -/
def parseCondChildren (children : CondList) (sep : String) (n : Nat) :
    String × List GoVal × Nat :=
  let r := parseCondList children n
  ("(" ++ goJoin sep r.1 ++ ")", r.2.1, r.2.2)

/-- Entry into the condition compiler as the statement builders call it:
`parseCond(condition, n)` where `n` may be Go `nil`, in which case `newN()`
(postgres.go:229-232) starts the counter at 1.  (For a `null` condition Go
returns before the nil check; the result is the same because the counter is
not used on that path.) -/
def parseCondOpt (c : Cond) (n : Option Nat) : String × List GoVal × Nat :=
  parseCond c (n.getD 1)

/-- `buildWhere` (postgres.go:181-188): compiles the condition, appends
`" WHERE %s"` to the verb template and the fragment to the format arguments
only when the fragment is non-empty, and renders the final statement with
`fmt.Sprintf`.  Returns the statement and the condition's bound values. -/
def buildWhere (condition : Cond) (query : String) (n : Option Nat)
    (queryValues : List String) : String × List GoVal :=
  let r := parseCondOpt condition n
  let condWhere := r.1
  let condValues := r.2.1
  let qv := if condWhere != "" then (query ++ " WHERE %s", queryValues ++ [condWhere])
            else (query, queryValues)
  (goSprintf qv.1 qv.2, condValues)

/-- One SET assignment as `Update` receives it (`skyorm.Val`): the assigned
property's name (`Prop().Name()`) and the assigned value (`Val()`). -/
structure UpdVal where
  propName : String
  val : GoVal
deriving DecidableEq

/-- `buildUpdateProps` (postgres.go:190-202): renders the SET fragments
`"<col> = $<i+1>"` in call order and returns `(i + 2, joined, values)` where
`i` is Go's loop variable after the loop — the last index when `values` is
non-empty, but still its initial `0` when `values` is empty, since a
`range` loop over an empty slice never assigns its iteration variable. -/
def buildUpdateProps (values : List UpdVal) : Nat × String × List GoVal :=
  let ls := values.mapIdx (fun i v => v.propName ++ " = $" ++ itoa (i + 1))
  let lv := values.map (fun v => v.val)
  let i := if values.length == 0 then 0 else values.length - 1
  (i + 2, goJoin ", " ls, lv)

/-- A record property (`skyorm.Prop`): its column name and primary-key
flag. -/
structure OrmProp where
  Name : String
  IsPk : Bool
deriving DecidableEq

/-- A Go slice store `l[c] = s`: in range it replaces the element, out of
range it panics (`none`). -/
def goSliceSet (l : List String) (c : Nat) (s : String) : Option (List String) :=
  if c < l.length then some (l.set c s) else none

/-- The loop of `buildQueryProperties` (postgres.go:210-217): walk the
properties, skip the pk when `isSerial`, and write each kept name into the
pre-sized buffer at the running cursor `c`. -/
def bqpLoop (isSerial : Bool) : List OrmProp → List String → Nat → Option (List String)
  | [], l, _ => some l
  | p :: ps, l, c =>
      if isSerial && p.IsPk then bqpLoop isSerial ps l c
      else match goSliceSet l c p.Name with
        | none => none
        | some l2 => bqpLoop isSerial ps l2 (c + 1)

/-- `buildQueryProperties` (postgres.go:204-219): joins the property names
with `", "`, excluding the pk column when `isSerial`.  The buffer is
pre-sized to `len(properties) - 1` in the serial case; `none` models the
panics Go would raise on a negative `make` size or an out-of-range write
(only possible when the pk-flagged property count differs from 1). -/
def buildQueryProperties (properties : List OrmProp) (isSerial : Bool) : Option String :=
  let ln : Int := (properties.length : Int) - (if isSerial then 1 else 0)
  if ln < 0 then none
  else (bqpLoop isSerial properties (List.replicate ln.toNat "") 0).map (goJoin ", ")

/-- `buildInsertPlaceholders` (postgres.go:221-227): `"$1, $2, ..., $n"`.
The Go loop writes `l[i-1] = "$" + strconv.Itoa(i)` for `i = 1..n` into an
exact-fit buffer; `none` models the panic of `make([]string, n)` on a
negative count. -/
def buildInsertPlaceholders (n : Int) : Option String :=
  if n < 0 then none
  else some (goJoin ", " ((List.range' 1 n.toNat).map (fun i => "$" ++ itoa i)))

/-- A record (`skyorm.Model`) as `Put` observes it: store name, ordered
property list, the positionally parallel value list, the primary-key value
and the primary-key column name. -/
structure Model where
  storeName : String
  props : List OrmProp
  vals : List GoVal
  pk : GoVal
  pkPropName : String
deriving DecidableEq

/-- The serial-case value filter of `Put` (postgres.go:46-53): iterate the
values with their index, skip a value whenever the property at the same
index is pk-flagged.  `none` models the index panic Go raises when the
value list is longer than the property list. -/
def serialVals : List OrmProp → List GoVal → Option (List GoVal)
  | _, [] => some []
  | [], _ :: _ => none
  | p :: ps, v :: vs =>
      match serialVals ps vs with
      | none => none
      | some rest => some (if p.IsPk then rest else v :: rest)

/-- The body of `Put`'s statement building for one record
(postgres.go:34-53) given `isSerial`, the result of the emptiness test:
build the `INSERT ... RETURNING` statement and the bound-value list
(excluding the pk value in the serial case).  `none` models a panic in the
buffer-writing helpers or in the serial value filter. -/
def putStatementCore (m : Model) (isSerial : Bool) : Option (String × List GoVal) :=
  let vl : Int := (m.vals.length : Int) - (if isSerial then 1 else 0)
  match buildQueryProperties m.props isSerial, buildInsertPlaceholders vl with
  | some cols, some ph =>
      let query := goSprintf "INSERT INTO %s (%s) VALUES (%s) RETURNING %s"
        [m.storeName, cols, ph, m.pkPropName]
      (match (if isSerial then serialVals m.props m.vals else some m.vals) with
       | none => none
       | some values => some (query, values))
  | _, _ => none

/-- The pure statement-building part of `Put` for one record
(postgres.go:31-55): decide serial-ness from the pk's emptiness
(`none` models the panic `isPkEmpty` may raise), then build the statement
and its bound values. -/
def putStatement (m : Model) : Option (String × List GoVal) :=
  match isPkEmpty m.pk with
  | none => none
  | some isSerial => putStatementCore m isSerial

/-- The result-scanning step of `Put` (postgres.go:59):
`row.Scan(m.OrmPkPointer())` writes the value the statement returned into
the record's primary-key destination.  The source performs this scan on
both the serial and the non-serial path. -/
def putScan (m : Model) (returned : GoVal) : Model :=
  { m with pk := returned }

/-- A store (`skyorm.Store`) as `Find` observes it: table name and ordered
property list. -/
structure StoreModel where
  name : String
  props : List OrmProp
deriving DecidableEq

/-- The pure query-building part of `Find` (postgres.go:78-88): SELECT with
optional WHERE, then `" LIMIT <limit> OFFSET <offset>"` appended exactly
when `limit > 0` (rendered through the `%d` verb, modelled by `itoaInt`). -/
def findQuery (store : StoreModel) (condition : Cond) (limit offset : Int) :
    Option (String × List GoVal) :=
  match buildQueryProperties store.props false with
  | none => none
  | some cols =>
    let r := buildWhere condition "SELECT %s FROM %s" none [cols, store.name]
    let query := if 0 < limit
      then r.1 ++ " LIMIT " ++ itoaInt limit ++ " OFFSET " ++ itoaInt offset
      else r.1
    some (query, r.2)

/-- The pure statement-building part of `Update` (postgres.go:107-119):
compile the SET clause, thread its continuation cursor into the condition
compiler through `buildWhere`, and append the WHERE values after the SET
values. -/
def updateQuery (storeName : String) (condition : Cond) (values : List UpdVal) :
    String × List GoVal :=
  let bup := buildUpdateProps values
  let cursor := bup.1
  let r := buildWhere condition "UPDATE %s SET %s" (some cursor) [storeName, bup.2.1]
  (r.1, bup.2.2 ++ r.2)

/-! ## Claim-side definitions

The definitions below are not translations of the source; they express the
vocabulary of the specification's claims — the left-to-right depth-first
sequence of leaf values of a tree, the supported-operators restriction, and
the sequence of `$n` placeholder positions occurring in an emitted
fragment — so that the claims can be stated against the compiler above. -/

mutual
/-- The bound values of a condition tree's leaf comparisons in
left-to-right, depth-first order. -/
def leafVals : Cond → List GoVal
  | .null => []
  | .comb _ children => leafValsList children
  | .leaf _ _ v => [v]
termination_by structural c => c

/-- `leafVals` over a child list. -/
def leafValsList : CondList → List GoVal
  | .nil => []
  | .cons c cs => leafVals c ++ leafValsList cs
termination_by structural cs => cs
end

/-- The number of leaf comparisons of a condition tree. -/
def numLeaves (c : Cond) : Nat :=
  (leafVals c).length

mutual
/-- Every leaf comparison of the tree uses one of the six supported
operator kinds. -/
def allSupported : Cond → Bool
  | .null => true
  | .comb _ children => allSupportedList children
  | .leaf k _ _ =>
      match k with
      | .unsupported => false
      | _ => true
termination_by structural c => c

/-- `allSupported` over a child list. -/
def allSupportedList : CondList → Bool
  | .nil => true
  | .cons c cs => allSupported c && allSupportedList cs
termination_by structural cs => cs
end

/-- The string contains no dollar character. -/
def noDollarStr (s : String) : Bool :=
  s.data.all (fun c => c != '$')

mutual
/-- No property name anywhere in the tree contains a dollar character, so
that the `$n` occurrences of an emitted fragment are exactly its
placeholders. -/
def noDollar : Cond → Bool
  | .null => true
  | .comb _ children => noDollarList children
  | .leaf _ p _ => noDollarStr p
termination_by structural c => c

/-- `noDollar` over a child list. -/
def noDollarList : CondList → Bool
  | .nil => true
  | .cons c cs => noDollar c && noDollarList cs
termination_by structural cs => cs
end

/-- The number of children of a combinator's child list. -/
def condListLength : CondList → Nat
  | .nil => 0
  | .cons _ cs => 1 + condListLength cs

/-- One left-to-right scan collecting the `$n` tokens of a fragment: a `$`
starts a number, the following digit run is its decimal value, and the
number ends at the first non-digit (or at the end of the string).  The
`Option Nat` state carries the value of the number currently being read. -/
def extractGo : List Char → Option Nat → List Nat
  | [], none => []
  | [], some k => [k]
  | c :: rest, none =>
      if c == '$' then extractGo rest (some 0) else extractGo rest none
  | c :: rest, some k =>
      if c.isDigit then extractGo rest (some (k * 10 + (c.toNat - 48)))
      else k :: (if c == '$' then extractGo rest (some 0) else extractGo rest none)

/-- The sequence of `$n` placeholder positions occurring in a fragment, in
textual order. -/
def extractPlaceholders (s : String) : List Nat :=
  extractGo s.data none

/-- Decimal value of a digit run, continuing from accumulator `a` — the
same accumulation step `extractGo` performs while inside a number. -/
def dval (a : Nat) (l : List Char) : Nat :=
  l.foldl (fun x c => x * 10 + (c.toNat - 48)) a

/-- A separator usable between placeholder-carrying fragments: non-empty,
does not begin with a digit and contains no dollar.  `" AND "`, `" OR "`
and `", "` all satisfy it. -/
def sepOk (sep : String) : Bool :=
  (match sep.data with
   | [] => false
   | c :: _ => !c.isDigit) && sep.data.all (fun c => c != '$')

/-- The string contains no percent character (so `fmt.Sprintf` copies it
verbatim). -/
def noPercentStr (s : String) : Bool :=
  s.data.all (fun c => c != '%')

/-! ## Theorems -/

/-- The combinator case of `parseCond` is exactly the source's call to
`parseCondChildren` followed by the empty-value check. -/
theorem parseCond_comb_eq_children (ck : CombKind) (children : CondList) (n : Nat) :
    parseCond (.comb ck children) n =
      (let sep := match ck with
        | .cAnd => " AND "
        | .cOr => " OR "
       let r := parseCondChildren children sep n
       if r.2.1.length == 0 then ("", r.2.1, r.2.2)
       else (goJoin sep [r.1], r.2.1, r.2.2)) := by
  cases ck <;> rfl

example : extractPlaceholders "(age = $1 AND (city = $2 OR city = $3))" = [1, 2, 3] := by
  decide

example : parseCond (.leaf .eq "age" (.goInt64 30)) 1 =
    ("age = $1", [.goInt64 30], 2) := by decide

example :
    parseCond
      (.comb .cAnd (.cons (.leaf .eq "age" (.goInt64 30))
        (.cons (.comb .cOr (.cons (.leaf .eq "city" (.goString "NY"))
          (.cons (.leaf .eq "city" (.goString "LA")) .nil))) .nil))) 1 =
    ("(age = $1 AND (city = $2 OR city = $3))",
      [.goInt64 30, .goString "NY", .goString "LA"], 4) := by decide

theorem digitChar_isDigit (n : Nat) : (digitChar n).isDigit = true := by
  rcases n with _ | _ | _ | _ | _ | _ | _ | _ | _ | n <;> rfl

theorem digitChar_toNat (n : Nat) (h : n < 10) : (digitChar n).toNat - 48 = n := by
  interval_cases n <;> decide

theorem itoaCore_acc (fuel : Nat) : ∀ (n : Nat) (acc : List Char), n < fuel →
    itoaCore fuel n acc = itoaCore fuel n [] ++ acc := by
  induction fuel with
  | zero => intro n acc h; omega
  | succ fuel ih =>
      intro n acc _
      by_cases h10 : n < 10
      · simp [itoaCore, h10]
      · have hd : n / 10 < fuel := by
          have h1 : n / 10 < n := Nat.div_lt_self (by omega) (by omega)
          omega
        simp only [itoaCore, h10, if_false]
        rw [ih (n / 10) (digitChar (n % 10) :: acc) hd,
          ih (n / 10) [digitChar (n % 10)] hd]
        simp

theorem itoa_data_digits (n : Nat) : ∀ c ∈ (itoa n).data, c.isDigit = true := by
  suffices h : ∀ fuel m, m < fuel → ∀ c ∈ itoaCore fuel m [], c.isDigit = true by
    exact h (n + 1) n (by omega)
  intro fuel
  induction fuel with
  | zero => intro m h; omega
  | succ fuel ih =>
      intro m h c hc
      by_cases h10 : m < 10
      · simp [itoaCore, h10] at hc
        rw [hc]
        exact digitChar_isDigit m
      · have hd : m / 10 < fuel := by
          have h1 : m / 10 < m := Nat.div_lt_self (by omega) (by omega)
          omega
        simp only [itoaCore, h10, if_false] at hc
        rw [itoaCore_acc fuel (m / 10) _ hd] at hc
        rcases List.mem_append.mp hc with h1 | h1
        · exact ih (m / 10) hd c h1
        · simp at h1
          rw [h1]
          exact digitChar_isDigit (m % 10)

theorem dval_append (a : Nat) (l1 l2 : List Char) :
    dval a (l1 ++ l2) = dval (dval a l1) l2 := by
  simp [dval]

theorem itoaCore_dval (fuel : Nat) : ∀ n, n < fuel → ∀ a,
    dval a (itoaCore fuel n []) = a * 10 ^ (itoaCore fuel n []).length + n := by
  induction fuel with
  | zero => intro n h; omega
  | succ fuel ih =>
      intro n h a
      by_cases h10 : n < 10
      · simp [itoaCore, h10, dval, digitChar_toNat n h10]
      · have hd : n / 10 < fuel := by
          have h1 : n / 10 < n := Nat.div_lt_self (by omega) (by omega)
          omega
        simp only [itoaCore, h10, if_false]
        rw [itoaCore_acc fuel (n / 10) _ hd, dval_append, ih (n / 10) hd a]
        have hmod : n % 10 < 10 := Nat.mod_lt _ (by omega)
        simp [dval, digitChar_toNat (n % 10) hmod, pow_succ]
        have hdm := Nat.div_add_mod n 10
        ring_nf
        omega

theorem itoa_dval (n : Nat) : dval 0 (itoa n).data = n := by
  have h := itoaCore_dval (n + 1) n (by omega) 0
  simpa [itoa] using h

theorem noDollarStr_spec (s : String) (h : noDollarStr s = true) :
    ∀ c ∈ s.data, c ≠ '$' := by
  simp only [noDollarStr, List.all_eq_true, bne_iff_ne, ne_eq] at h
  exact h

theorem extractGo_skip (a : List Char) (h : ∀ c ∈ a, c ≠ '$') (b : List Char) :
    extractGo (a ++ b) none = extractGo b none := by
  induction a with
  | nil => rfl
  | cons c a ih =>
      have hc : c ≠ '$' := h c (by simp)
      have h2 : ∀ x ∈ a, x ≠ '$' := fun x hx => h x (by simp [hx])
      simp [extractGo, hc, ih h2]

theorem extractGo_split (a : List Char) : ∀ (st : Option Nat) (c : Char) (b : List Char),
    c.isDigit = false →
    extractGo (a ++ c :: b) st = extractGo a st ++ extractGo (c :: b) none := by
  induction a with
  | nil =>
      intro st c b hc
      cases st with
      | none => rfl
      | some k => simp [extractGo, hc]
  | cons x a ih =>
      intro st c b hc
      cases st with
      | none =>
          by_cases hx : x = '$'
          · simp [extractGo, hx, ih (some 0) c b hc]
          · simp [extractGo, hx, ih none c b hc]
      | some k =>
          by_cases hd : x.isDigit
          · simp [extractGo, hd, ih (some _) c b hc]
          · by_cases hx : x = '$'
            · simp [extractGo, hd, hx, ih (some 0) c b hc]
            · simp [extractGo, hd, hx, ih none c b hc]

theorem extractGo_digits (ds : List Char) : ∀ a, (∀ c ∈ ds, c.isDigit = true) →
    extractGo ds (some a) = [dval a ds] := by
  induction ds with
  | nil => intro a _; simp [extractGo, dval]
  | cons c ds ih =>
      intro a h
      have hc : c.isDigit = true := h c (by simp)
      simp [extractGo, hc, ih _ (fun x hx => h x (by simp [hx])), dval]

theorem extract_dollar_num (pre : List Char) (k : Nat) (h : ∀ c ∈ pre, c ≠ '$') :
    extractGo (pre ++ '$' :: (itoa k).data) none = [k] := by
  rw [extractGo_skip pre h]
  have h1 : extractGo ('$' :: (itoa k).data) none = extractGo (itoa k).data (some 0) := by
    simp [extractGo]
  rw [h1, extractGo_digits _ 0 (itoa_data_digits k), itoa_dval]

theorem sepOk_spec (sep : String) (h : sepOk sep = true) :
    (∃ c cs, sep.data = c :: cs ∧ c.isDigit = false) ∧ ∀ x ∈ sep.data, x ≠ '$' := by
  simp only [sepOk, Bool.and_eq_true] at h
  obtain ⟨h1, h2⟩ := h
  constructor
  · cases hs : sep.data with
    | nil => rw [hs] at h1; simp at h1
    | cons c cs =>
        rw [hs] at h1
        exact ⟨c, cs, rfl, by simpa using h1⟩
  · intro x hx
    have := List.all_eq_true.mp h2 x hx
    simpa using this

theorem extract_goJoin (sep : String) (hsep : sepOk sep = true)
    (parts : List String) :
    extractGo (goJoin sep parts).data none =
      (parts.map (fun s => extractGo s.data none)).flatten := by
  induction parts with
  | nil => rfl
  | cons s rest ih =>
      cases rest with
      | nil => simp [goJoin]
      | cons t ts =>
          obtain ⟨⟨c, cs, hdata, hcdig⟩, hnd⟩ := sepOk_spec sep hsep
          have hjoin : goJoin sep (s :: t :: ts) = s ++ sep ++ goJoin sep (t :: ts) := rfl
          have hstep : (s ++ sep ++ goJoin sep (t :: ts)).data =
              s.data ++ c :: (cs ++ (goJoin sep (t :: ts)).data) := by
            simp [String.data_append, hdata]
          rw [hjoin, hstep, extractGo_split s.data none c _ hcdig]
          have htail : extractGo (c :: (cs ++ (goJoin sep (t :: ts)).data)) none =
              extractGo (goJoin sep (t :: ts)).data none := by
            have : c :: (cs ++ (goJoin sep (t :: ts)).data) =
                sep.data ++ (goJoin sep (t :: ts)).data := by simp [hdata]
            rw [this, extractGo_skip sep.data hnd]
          rw [htail, ih]
          simp

theorem extract_paren (xs : List Char) :
    extractGo ('(' :: (xs ++ [')'])) none = extractGo xs none := by
  have h1 : extractGo ('(' :: (xs ++ [')'])) none = extractGo (xs ++ [')']) none := by
    simp [extractGo]
  rw [h1, extractGo_split xs none ')' [] (by decide)]
  simp [extractGo]

theorem extract_leaf_fragment (p : String) (opd : String) (k : Nat)
    (hp : noDollarStr p = true)
    (hop : ∃ mid, opd.data = mid ++ ['$'] ∧ ∀ c ∈ mid, c ≠ '$') :
    extractGo (p ++ opd ++ itoa k).data none = [k] := by
  obtain ⟨mid, hd, hm⟩ := hop
  have hdata : (p ++ opd ++ itoa k).data = (p.data ++ mid) ++ '$' :: (itoa k).data := by
    simp [String.data_append, hd]
  rw [hdata]
  apply extract_dollar_num
  intro c hc
  rcases List.mem_append.mp hc with h | h
  · exact noDollarStr_spec p hp c h
  · exact hm c h

mutual
/-- Joint specification of one compiler pass, proved with the claims below:
for a tree whose leaves all carry supported operators and dollar-free
property names, `parseCond c n` returns the depth-first leaf values, the
counter advanced by the leaf count, and a fragment whose `$i` occurrences
are exactly `n, n+1, ...` in textual order. -/
theorem parseCond_spec (c : Cond) : ∀ (n : Nat),
    allSupported c = true → noDollar c = true →
    (parseCond c n).2.1 = leafVals c ∧
    (parseCond c n).2.2 = n + numLeaves c ∧
    extractGo (parseCond c n).1.data none = List.range' n (numLeaves c) := by
  cases c with
  | null =>
      intro n _ _
      have h0 : numLeaves Cond.null = 0 := rfl
      exact ⟨rfl, by simp [parseCond, h0], by simp [parseCond, extractGo, h0]⟩
  | leaf k p v =>
      intro n hsup hnd
      have hp : noDollarStr p = true := hnd
      have hnum : numLeaves (.leaf k p v) = 1 := rfl
      cases k with
      | unsupported => simp [allSupported] at hsup
      | eq =>
          refine ⟨rfl, rfl, ?_⟩
          rw [hnum, List.range'_one]
          have : (parseCond (.leaf .eq p v) n).1 = p ++ " = $" ++ itoa n := by
            simp [parseCond, parseRegularCond]
          rw [this]
          exact extract_leaf_fragment p " = $" n hp ⟨[' ', '=', ' '], rfl, by decide⟩
      | neq =>
          refine ⟨rfl, rfl, ?_⟩
          rw [hnum, List.range'_one]
          have : (parseCond (.leaf .neq p v) n).1 = p ++ " <> $" ++ itoa n := by
            simp [parseCond, parseRegularCond]
          rw [this]
          exact extract_leaf_fragment p " <> $" n hp ⟨[' ', '<', '>', ' '], rfl, by decide⟩
      | lt =>
          refine ⟨rfl, rfl, ?_⟩
          rw [hnum, List.range'_one]
          have : (parseCond (.leaf .lt p v) n).1 = p ++ " < $" ++ itoa n := by
            simp [parseCond, parseRegularCond]
          rw [this]
          exact extract_leaf_fragment p " < $" n hp ⟨[' ', '<', ' '], rfl, by decide⟩
      | lte =>
          refine ⟨rfl, rfl, ?_⟩
          rw [hnum, List.range'_one]
          have : (parseCond (.leaf .lte p v) n).1 = p ++ " <= $" ++ itoa n := by
            simp [parseCond, parseRegularCond]
          rw [this]
          exact extract_leaf_fragment p " <= $" n hp ⟨[' ', '<', '=', ' '], rfl, by decide⟩
      | gt =>
          refine ⟨rfl, rfl, ?_⟩
          rw [hnum, List.range'_one]
          have : (parseCond (.leaf .gt p v) n).1 = p ++ " > $" ++ itoa n := by
            simp [parseCond, parseRegularCond]
          rw [this]
          exact extract_leaf_fragment p " > $" n hp ⟨[' ', '>', ' '], rfl, by decide⟩
      | gte =>
          refine ⟨rfl, rfl, ?_⟩
          rw [hnum, List.range'_one]
          have : (parseCond (.leaf .gte p v) n).1 = p ++ " >= $" ++ itoa n := by
            simp [parseCond, parseRegularCond]
          rw [this]
          exact extract_leaf_fragment p " >= $" n hp ⟨[' ', '>', '=', ' '], rfl, by decide⟩
  | comb ck children =>
      intro n hsup hnd
      obtain ⟨ih1, ih2, ih3⟩ := parseCondList_spec children n hsup hnd
      have hnum : numLeaves (.comb ck children) = (leafValsList children).length := by
        simp [numLeaves, leafVals]
      cases ck with
      | cAnd =>
          have hunf : parseCond (.comb .cAnd children) n =
              (let r := parseCondList children n
               if r.2.1.length == 0 then ("", r.2.1, r.2.2)
               else ("(" ++ goJoin " AND " r.1 ++ ")", r.2.1, r.2.2)) := rfl
          rw [hunf]
          by_cases hL : (parseCondList children n).2.1.length = 0
          · simp only [hL, Nat.zero_eq, beq_self_eq_true, if_true]
            have hlv : (leafValsList children).length = 0 := by rw [← ih1]; exact hL
            refine ⟨ih1, by rw [ih2, hnum], ?_⟩
            rw [hnum, hlv, List.range'_zero]
            rfl
          · simp only [hL, if_false, beq_iff_eq]
            refine ⟨ih1, by rw [ih2, hnum], ?_⟩
            have hdata : ("(" ++ goJoin " AND " (parseCondList children n).1 ++ ")").data =
                '(' :: ((goJoin " AND " (parseCondList children n).1).data ++ [')']) := by
              simp [String.data_append]
            rw [hdata, extract_paren, extract_goJoin " AND " (by decide), ih3, hnum]
      | cOr =>
          have hunf : parseCond (.comb .cOr children) n =
              (let r := parseCondList children n
               if r.2.1.length == 0 then ("", r.2.1, r.2.2)
               else ("(" ++ goJoin " OR " r.1 ++ ")", r.2.1, r.2.2)) := rfl
          rw [hunf]
          by_cases hL : (parseCondList children n).2.1.length = 0
          · simp only [hL, Nat.zero_eq, beq_self_eq_true, if_true]
            have hlv : (leafValsList children).length = 0 := by rw [← ih1]; exact hL
            refine ⟨ih1, by rw [ih2, hnum], ?_⟩
            rw [hnum, hlv, List.range'_zero]
            rfl
          · simp only [hL, if_false, beq_iff_eq]
            refine ⟨ih1, by rw [ih2, hnum], ?_⟩
            have hdata : ("(" ++ goJoin " OR " (parseCondList children n).1 ++ ")").data =
                '(' :: ((goJoin " OR " (parseCondList children n).1).data ++ [')']) := by
              simp [String.data_append]
            rw [hdata, extract_paren, extract_goJoin " OR " (by decide), ih3, hnum]
termination_by structural c

/-- `parseCond_spec` for the children loop. -/
theorem parseCondList_spec (cs : CondList) : ∀ (n : Nat),
    allSupportedList cs = true → noDollarList cs = true →
    (parseCondList cs n).2.1 = leafValsList cs ∧
    (parseCondList cs n).2.2 = n + (leafValsList cs).length ∧
    ((parseCondList cs n).1.map (fun s => extractGo s.data none)).flatten =
      List.range' n (leafValsList cs).length := by
  cases cs with
  | nil =>
      intro n _ _
      exact ⟨rfl, by simp [parseCondList, leafValsList],
        by simp [parseCondList, leafValsList, List.range'_zero]⟩
  | cons c cs =>
      intro n hsup hnd
      have hsupc : allSupported c = true := by
        have h := hsup
        simp only [allSupportedList, Bool.and_eq_true] at h
        exact h.1
      have hsups : allSupportedList cs = true := by
        have h := hsup
        simp only [allSupportedList, Bool.and_eq_true] at h
        exact h.2
      have hndc : noDollar c = true := by
        have h := hnd
        simp only [noDollarList, Bool.and_eq_true] at h
        exact h.1
      have hnds : noDollarList cs = true := by
        have h := hnd
        simp only [noDollarList, Bool.and_eq_true] at h
        exact h.2
      obtain ⟨h1, h2, h3⟩ := parseCond_spec c n hsupc hndc
      obtain ⟨g1, g2, g3⟩ := parseCondList_spec cs ((parseCond c n).2.2) hsups hnds
      have hunf : parseCondList (.cons c cs) n =
          ((parseCond c n).1 :: (parseCondList cs ((parseCond c n).2.2)).1,
           (parseCond c n).2.1 ++ (parseCondList cs ((parseCond c n).2.2)).2.1,
           (parseCondList cs ((parseCond c n).2.2)).2.2) := rfl
      rw [hunf]
      refine ⟨?_, ?_, ?_⟩
      · simp only [leafValsList]
        rw [h1, g1]
      · simp only [leafValsList]
        rw [g2, h2]
        simp [List.length_append, numLeaves]
        omega
      · simp only [leafValsList, List.map_cons, List.flatten_cons]
        rw [h3, g3, h2, numLeaves, List.length_append,
          Nat.add_comm (leafVals c).length (leafValsList cs).length]
        exact List.range'_append_1 n (leafVals c).length (leafValsList cs).length
termination_by structural cs
end

theorem sprintfAux_cons_ne (c : Char) (rest : List Char) (args : List String)
    (hc : c ≠ '%') : sprintfAux (c :: rest) args = c :: sprintfAux rest args := by
  rw [sprintfAux.eq_def]
  simp [hc]

theorem sprintfAux_skip (f1 : List Char) (h : ∀ c ∈ f1, c ≠ '%') :
    ∀ (f2 : List Char) (args : List String),
      sprintfAux (f1 ++ f2) args = f1 ++ sprintfAux f2 args := by
  induction f1 with
  | nil => intro f2 args; rfl
  | cons c f1 ih =>
      intro f2 args
      rw [List.cons_append, sprintfAux_cons_ne c _ args (h c (by simp)),
        ih (fun x hx => h x (by simp [hx])) f2 args]
      rfl

theorem sprintfAux_verb (rest : List Char) (a : String) (args : List String) :
    sprintfAux ('%' :: 's' :: rest) (a :: args) = a.data ++ sprintfAux rest args := by
  simp [sprintfAux]

theorem goSprintf_step (pre : String) (rest : List Char) (a : String) (args : List String)
    (h : noPercentStr pre = true) :
    sprintfAux (pre.data ++ '%' :: 's' :: rest) (a :: args) =
      pre.data ++ (a.data ++ sprintfAux rest args) := by
  have hp : ∀ c ∈ pre.data, c ≠ '%' := by
    simp only [noPercentStr, List.all_eq_true, bne_iff_ne, ne_eq] at h
    exact h
  rw [sprintfAux_skip pre.data hp, sprintfAux_verb]

theorem goSprintf_select (a b : String) :
    goSprintf "SELECT %s FROM %s" [a, b] = "SELECT " ++ a ++ " FROM " ++ b := by
  apply String.ext
  show sprintfAux ("SELECT %s FROM %s").data [a, b] = ("SELECT " ++ a ++ " FROM " ++ b).data
  have hfmt : ("SELECT %s FROM %s").data =
      ("SELECT " : String).data ++ '%' :: 's' :: ((" FROM " : String).data ++ '%' :: 's' :: []) := by
    decide
  rw [hfmt, goSprintf_step _ _ _ _ (by decide), goSprintf_step _ _ _ _ (by decide)]
  simp [String.data_append, sprintfAux]

theorem goSprintf_select_where (a b c : String) :
    goSprintf "SELECT %s FROM %s WHERE %s" [a, b, c] =
      "SELECT " ++ a ++ " FROM " ++ b ++ " WHERE " ++ c := by
  apply String.ext
  show sprintfAux ("SELECT %s FROM %s WHERE %s").data [a, b, c] =
    ("SELECT " ++ a ++ " FROM " ++ b ++ " WHERE " ++ c).data
  have hfmt : ("SELECT %s FROM %s WHERE %s").data =
      ("SELECT " : String).data ++ '%' :: 's' ::
        ((" FROM " : String).data ++ '%' :: 's' ::
          ((" WHERE " : String).data ++ '%' :: 's' :: [])) := by
    decide
  rw [hfmt, goSprintf_step _ _ _ _ (by decide), goSprintf_step _ _ _ _ (by decide),
    goSprintf_step _ _ _ _ (by decide)]
  simp [String.data_append, sprintfAux]

theorem goSprintf_update (a b : String) :
    goSprintf "UPDATE %s SET %s" [a, b] = "UPDATE " ++ a ++ " SET " ++ b := by
  apply String.ext
  show sprintfAux ("UPDATE %s SET %s").data [a, b] = ("UPDATE " ++ a ++ " SET " ++ b).data
  have hfmt : ("UPDATE %s SET %s").data =
      ("UPDATE " : String).data ++ '%' :: 's' :: ((" SET " : String).data ++ '%' :: 's' :: []) := by
    decide
  rw [hfmt, goSprintf_step _ _ _ _ (by decide), goSprintf_step _ _ _ _ (by decide)]
  simp [String.data_append, sprintfAux]

theorem goSprintf_update_where (a b c : String) :
    goSprintf "UPDATE %s SET %s WHERE %s" [a, b, c] =
      "UPDATE " ++ a ++ " SET " ++ b ++ " WHERE " ++ c := by
  apply String.ext
  show sprintfAux ("UPDATE %s SET %s WHERE %s").data [a, b, c] =
    ("UPDATE " ++ a ++ " SET " ++ b ++ " WHERE " ++ c).data
  have hfmt : ("UPDATE %s SET %s WHERE %s").data =
      ("UPDATE " : String).data ++ '%' :: 's' ::
        ((" SET " : String).data ++ '%' :: 's' ::
          ((" WHERE " : String).data ++ '%' :: 's' :: [])) := by
    decide
  rw [hfmt, goSprintf_step _ _ _ _ (by decide), goSprintf_step _ _ _ _ (by decide),
    goSprintf_step _ _ _ _ (by decide)]
  simp [String.data_append, sprintfAux]

theorem goSprintf_insert (a b c d : String) :
    goSprintf "INSERT INTO %s (%s) VALUES (%s) RETURNING %s" [a, b, c, d] =
      "INSERT INTO " ++ a ++ " (" ++ b ++ ") VALUES (" ++ c ++ ") RETURNING " ++ d := by
  apply String.ext
  show sprintfAux ("INSERT INTO %s (%s) VALUES (%s) RETURNING %s").data [a, b, c, d] =
    ("INSERT INTO " ++ a ++ " (" ++ b ++ ") VALUES (" ++ c ++ ") RETURNING " ++ d).data
  have hfmt : ("INSERT INTO %s (%s) VALUES (%s) RETURNING %s").data =
      ("INSERT INTO " : String).data ++ '%' :: 's' ::
        ((" (" : String).data ++ '%' :: 's' ::
          ((") VALUES (" : String).data ++ '%' :: 's' ::
            ((") RETURNING " : String).data ++ '%' :: 's' :: []))) := by
    decide
  rw [hfmt, goSprintf_step _ _ _ _ (by decide), goSprintf_step _ _ _ _ (by decide),
    goSprintf_step _ _ _ _ (by decide), goSprintf_step _ _ _ _ (by decide)]
  simp [String.data_append, sprintfAux]

theorem take_set_succ (l : List String) : ∀ (c : Nat) (s : String), c < l.length →
    (l.set c s).take (c + 1) = l.take c ++ [s] := by
  induction l with
  | nil => intro c s h; simp at h
  | cons x xs ih =>
      intro c s h
      cases c with
      | zero => simp
      | succ k =>
          have hk : k < xs.length := by simpa using h
          simp [List.set, List.take_succ_cons, ih k s hk]

theorem bqpLoop_exact (isSerial : Bool) : ∀ (ps : List OrmProp) (l : List String) (c : Nat),
    l.length = c + (ps.filter (fun p => !(isSerial && p.IsPk))).length →
    bqpLoop isSerial ps l c =
      some (l.take c ++ (ps.filter (fun p => !(isSerial && p.IsPk))).map (fun p => p.Name)) := by
  intro ps
  induction ps with
  | nil =>
      intro l c h
      simp only [List.filter_nil, List.length_nil, Nat.add_zero] at h
      simp [bqpLoop, List.take_of_length_le (le_of_eq h)]
  | cons p ps ih =>
      intro l c h
      by_cases hskip : (isSerial && p.IsPk) = true
      · have hfil : (p :: ps).filter (fun p => !(isSerial && p.IsPk)) =
            ps.filter (fun p => !(isSerial && p.IsPk)) := by
          simp [List.filter, hskip]
        rw [hfil] at h
        have : bqpLoop isSerial (p :: ps) l c = bqpLoop isSerial ps l c := by
          simp [bqpLoop, hskip]
        rw [this, ih l c h, hfil]
      · have hfil : (p :: ps).filter (fun p => !(isSerial && p.IsPk)) =
            p :: ps.filter (fun p => !(isSerial && p.IsPk)) := by
          simp [List.filter, hskip]
        rw [hfil] at h
        simp only [List.length_cons] at h
        have hc : c < l.length := by omega
        have hstep : bqpLoop isSerial (p :: ps) l c =
            bqpLoop isSerial ps (l.set c p.Name) (c + 1) := by
          simp [bqpLoop, hskip, goSliceSet, hc]
        rw [hstep, ih (l.set c p.Name) (c + 1) (by simp only [List.length_set]; omega), hfil]
        rw [take_set_succ l c p.Name hc]
        simp

theorem buildQueryProperties_false (ps : List OrmProp) :
    buildQueryProperties ps false = some (goJoin ", " (ps.map (fun p => p.Name))) := by
  have hfil : ps.filter (fun p => !(false && p.IsPk)) = ps := by
    simp
  have h := bqpLoop_exact false ps (List.replicate ps.length "") 0 (by simp [hfil])
  rw [hfil] at h
  have hgoal : buildQueryProperties ps false =
      (bqpLoop false ps (List.replicate ps.length "") 0).map (goJoin ", ") := by
    simp only [buildQueryProperties]
    norm_num
  rw [hgoal, h]
  simp

theorem length_filter_pk_add (ps : List OrmProp) :
    (ps.filter (fun p => p.IsPk)).length + (ps.filter (fun p => !p.IsPk)).length = ps.length := by
  induction ps with
  | nil => rfl
  | cons p ps ih =>
      by_cases h : p.IsPk = true <;> simp [List.filter, h] <;> omega

theorem buildQueryProperties_serial (ps : List OrmProp)
    (h : (ps.filter (fun p => p.IsPk)).length = 1) :
    buildQueryProperties ps true =
      some (goJoin ", " ((ps.filter (fun p => !p.IsPk)).map (fun p => p.Name))) := by
  have hfil : ps.filter (fun p => !(true && p.IsPk)) = ps.filter (fun p => !p.IsPk) := by
    simp
  have hlen : (ps.filter (fun p => !p.IsPk)).length + 1 = ps.length := by
    have := length_filter_pk_add ps
    omega
  have hrep : (List.replicate ((ps.length : Int) - 1).toNat "").length =
      0 + (ps.filter (fun p => !(true && p.IsPk))).length := by
    simp [hfil]
    omega
  have hb := bqpLoop_exact true ps (List.replicate ((ps.length : Int) - 1).toNat "") 0 hrep
  have hone : ps.length ≥ 1 := by omega
  have hgoal : buildQueryProperties ps true =
      (bqpLoop true ps (List.replicate ((ps.length : Int) - 1).toNat "") 0).map (goJoin ", ") := by
    show (if ((ps.length : Int) - 1 < 0) then none
          else (bqpLoop true ps (List.replicate ((ps.length : Int) - 1).toNat "") 0).map
            (goJoin ", ")) = _
    rw [if_neg (by omega)]
  rw [hgoal, hb, hfil]
  simp

theorem serialVals_eq_filter : ∀ (ps : List OrmProp) (vs : List GoVal),
    ps.length = vs.length →
    serialVals ps vs =
      some (((ps.zip vs).filter (fun pv => !pv.1.IsPk)).map (fun pv => pv.2)) := by
  intro ps
  induction ps with
  | nil =>
      intro vs h
      cases vs with
      | nil => rfl
      | cons v vs => simp at h
  | cons p ps ih =>
      intro vs h
      cases vs with
      | nil => simp at h
      | cons v vs =>
          have hlen : ps.length = vs.length := by simpa using h
          have hrec := ih vs hlen
          by_cases hpk : p.IsPk = true <;>
            simp [serialVals, hrec, List.zip_cons_cons, List.filter, hpk] <;>
            rfl

theorem buildUpdateProps_cursor (values : List UpdVal) (h : values ≠ []) :
    (buildUpdateProps values).1 = values.length + 1 := by
  cases values with
  | nil => exact absurd rfl h
  | cons v vs =>
      simp [buildUpdateProps]

theorem parseCondList_length (cs : CondList) : ∀ n,
    (parseCondList cs n).1.length = condListLength cs := by
  cases cs with
  | nil => intro n; rfl
  | cons c cs2 =>
      intro n
      simp [parseCondList, condListLength, parseCondList_length cs2]
      omega
termination_by structural cs

theorem buildInsertPlaceholders_nonneg (n : Int) (h : 0 ≤ n) :
    buildInsertPlaceholders n =
      some (goJoin ", " ((List.range' 1 n.toNat).map (fun i => "$" ++ itoa i))) := by
  unfold buildInsertPlaceholders
  rw [if_neg (by omega)]

/-! ## Claims -/

/-- C1: for every condition tree whose leaf comparisons all use one of the
six supported operator kinds (and whose property names contain no dollar
character, so that the `$i` tokens of the emitted text are exactly its
placeholders), compiling with the counter starting at 1 returns exactly the
`numLeaves` bound values in left-to-right depth-first leaf order, and the
`$i` positions appearing in the emitted fragment are `$1, $2, ...` in that
exact order, so the i-th value of the list is referenced as `$i`. -/
theorem C1_dfs_value_and_placeholder_order (c : Cond)
    (hsup : allSupported c = true) (hnd : noDollar c = true) :
    (parseCond c 1).2.1 = leafVals c ∧
    (parseCond c 1).2.1.length = numLeaves c ∧
    extractPlaceholders (parseCond c 1).1 = List.range' 1 (numLeaves c) := by
  obtain ⟨h1, h2, h3⟩ := parseCond_spec c 1 hsup hnd
  refine ⟨h1, ?_, h3⟩
  rw [h1]
  rfl

/-- Witness for C1 at the specification's example
`AND(Eq(age,30), OR(Eq(city,"NY"), Eq(city,"LA")))`. -/
theorem C1_dfs_value_and_placeholder_order_witness :
    allSupported (.comb .cAnd (.cons (.leaf .eq "age" (.goInt64 30))
      (.cons (.comb .cOr (.cons (.leaf .eq "city" (.goString "NY"))
        (.cons (.leaf .eq "city" (.goString "LA")) .nil))) .nil))) = true ∧
    noDollar (.comb .cAnd (.cons (.leaf .eq "age" (.goInt64 30))
      (.cons (.comb .cOr (.cons (.leaf .eq "city" (.goString "NY"))
        (.cons (.leaf .eq "city" (.goString "LA")) .nil))) .nil))) = true ∧
    ((parseCond (.comb .cAnd (.cons (.leaf .eq "age" (.goInt64 30))
      (.cons (.comb .cOr (.cons (.leaf .eq "city" (.goString "NY"))
        (.cons (.leaf .eq "city" (.goString "LA")) .nil))) .nil))) 1).2.1 =
      leafVals (.comb .cAnd (.cons (.leaf .eq "age" (.goInt64 30))
        (.cons (.comb .cOr (.cons (.leaf .eq "city" (.goString "NY"))
          (.cons (.leaf .eq "city" (.goString "LA")) .nil))) .nil))) ∧
     (parseCond (.comb .cAnd (.cons (.leaf .eq "age" (.goInt64 30))
       (.cons (.comb .cOr (.cons (.leaf .eq "city" (.goString "NY"))
         (.cons (.leaf .eq "city" (.goString "LA")) .nil))) .nil))) 1).2.1.length =
       numLeaves (.comb .cAnd (.cons (.leaf .eq "age" (.goInt64 30))
         (.cons (.comb .cOr (.cons (.leaf .eq "city" (.goString "NY"))
           (.cons (.leaf .eq "city" (.goString "LA")) .nil))) .nil))) ∧
     extractPlaceholders (parseCond (.comb .cAnd (.cons (.leaf .eq "age" (.goInt64 30))
       (.cons (.comb .cOr (.cons (.leaf .eq "city" (.goString "NY"))
         (.cons (.leaf .eq "city" (.goString "LA")) .nil))) .nil))) 1).1 =
       List.range' 1 (numLeaves (.comb .cAnd (.cons (.leaf .eq "age" (.goInt64 30))
         (.cons (.comb .cOr (.cons (.leaf .eq "city" (.goString "NY"))
           (.cons (.leaf .eq "city" (.goString "LA")) .nil))) .nil))))) :=
  ⟨by decide, by decide,
    C1_dfs_value_and_placeholder_order _ (by decide) (by decide)⟩

/-- C3 counterexample: in `AND(Eq(a,1), <nil child>)` the second child
compiles to the empty fragment yet still occupies a join slot, so the
emitted fragment is `"(a = $1 AND )"` — a separator adjacent to an empty
operand — not `"(a = $1)"` as joining only the non-empty fragments would
give. -/
theorem C3_counterexample :
    (parseCond .null 2).1 = "" ∧
    (parseCond (.comb .cAnd (.cons (.leaf .eq "a" (.goInt64 1))
      (.cons .null .nil))) 1).1 = "(a = $1 AND )" ∧
    (parseCond (.comb .cAnd (.cons (.leaf .eq "a" (.goInt64 1))
      (.cons .null .nil))) 1).1 ≠ "(a = $1)" := by
  decide

/-- C3 amended: when a combinator compiles non-empty, ALL child fragments —
including empty ones — are joined with `" AND "` or `" OR "` per its kind
(one join slot per child, so a child compiling to the empty fragment still
contributes a separator position), and the joined result is wrapped in
parentheses. -/
theorem C3_all_children_joined (ck : CombKind) (children : CondList) (n : Nat)
    (h : (parseCondList children n).2.1 ≠ []) :
    (parseCond (.comb ck children) n).1 =
      "(" ++ goJoin (match ck with | .cAnd => " AND " | .cOr => " OR ")
        (parseCondList children n).1 ++ ")" ∧
    (parseCondList children n).1.length = condListLength children := by
  refine ⟨?_, parseCondList_length children n⟩
  have hlen : ((parseCondList children n).2.1.length == 0) = false := by
    simp [h]
  cases ck with
  | cAnd =>
      have hunf : parseCond (.comb .cAnd children) n =
          (let r := parseCondList children n
           if r.2.1.length == 0 then ("", r.2.1, r.2.2)
           else ("(" ++ goJoin " AND " r.1 ++ ")", r.2.1, r.2.2)) := rfl
      rw [hunf]
      simp only [hlen, Bool.false_eq_true, if_false]
  | cOr =>
      have hunf : parseCond (.comb .cOr children) n =
          (let r := parseCondList children n
           if r.2.1.length == 0 then ("", r.2.1, r.2.2)
           else ("(" ++ goJoin " OR " r.1 ++ ")", r.2.1, r.2.2)) := rfl
      rw [hunf]
      simp only [hlen, Bool.false_eq_true, if_false]

/-- Witness for the amended C3: `AND(Eq(a,1), Eq(b,2))` joins both child
fragments and wraps them; the child list occupies two slots. -/
theorem C3_all_children_joined_witness :
    (parseCondList (.cons (.leaf .eq "a" (.goInt64 1))
        (.cons (.leaf .eq "b" (.goInt64 2)) .nil)) 1).2.1 ≠ [] ∧
    (parseCond (.comb .cAnd (.cons (.leaf .eq "a" (.goInt64 1))
        (.cons (.leaf .eq "b" (.goInt64 2)) .nil))) 1).1 = "(a = $1 AND b = $2)" ∧
    (parseCondList (.cons (.leaf .eq "a" (.goInt64 1))
        (.cons (.leaf .eq "b" (.goInt64 2)) .nil)) 1).1.length = 2 := by
  have h := C3_all_children_joined .cAnd
    (.cons (.leaf .eq "a" (.goInt64 1)) (.cons (.leaf .eq "b" (.goInt64 2)) .nil)) 1
    (by decide)
  obtain ⟨h1, h2⟩ := h
  refine ⟨by decide, ?_, by decide⟩
  rw [h1]
  decide

/-- C4 counterexample: a combinator whose only child compiles to an empty
fragment does NOT always compile to `("", [])`: an unsupported-kind leaf
child compiles to the empty fragment but contributes a `nil` value, so the
combinator emits `"()"` with value list `[nil]`. -/
theorem C4_counterexample :
    (parseCond (.leaf .unsupported "p" (.goInt64 5)) 1).1 = "" ∧
    parseCond (.comb .cAnd (.cons (.leaf .unsupported "p" (.goInt64 5)) .nil)) 1 =
      ("()", [GoVal.goNil], 2) ∧
    ("()" : String) ≠ "" := by
  decide

/-- C4 amended: a combinator with no children — and, in general, one whose
children contribute no bound values (nil children, empty combinators) —
compiles to `("", [])`; the emptiness test the source applies is on the
accumulated value list, not on the child fragments, so only
unsupported-kind leaves (which emit no text but a `nil` value) escape it.
An absent condition compiles to `("", [])`, and `buildWhere` appends the
`" WHERE %s"` template piece and the fragment argument if and only if the
compiled fragment is non-empty. -/
theorem C4_empty_combinator_and_where (ck : CombKind) (children : CondList)
    (c : Cond) (q : String) (n0 : Option Nat) (vals : List String) (n : Nat) :
    (parseCond (.comb ck .nil) n = ("", [], n)) ∧
    ((parseCondList children n).2.1 = [] →
      parseCond (.comb ck children) n = ("", [], (parseCondList children n).2.2)) ∧
    (parseCond .null n = ("", [], n)) ∧
    ((parseCondOpt c n0).1 = "" →
      buildWhere c q n0 vals = (goSprintf q vals, (parseCondOpt c n0).2.1)) ∧
    ((parseCondOpt c n0).1 ≠ "" →
      buildWhere c q n0 vals =
        (goSprintf (q ++ " WHERE %s") (vals ++ [(parseCondOpt c n0).1]),
         (parseCondOpt c n0).2.1)) := by
  refine ⟨?_, ?_, ?_, ?_, ?_⟩
  · cases ck <;> rfl
  · intro h
    cases ck with
    | cAnd =>
        have hunf : parseCond (.comb .cAnd children) n =
            (let r := parseCondList children n
             if r.2.1.length == 0 then ("", r.2.1, r.2.2)
             else ("(" ++ goJoin " AND " r.1 ++ ")", r.2.1, r.2.2)) := rfl
        rw [hunf]
        simp [h]
    | cOr =>
        have hunf : parseCond (.comb .cOr children) n =
            (let r := parseCondList children n
             if r.2.1.length == 0 then ("", r.2.1, r.2.2)
             else ("(" ++ goJoin " OR " r.1 ++ ")", r.2.1, r.2.2)) := rfl
        rw [hunf]
        simp [h]
  · rfl
  · intro h
    simp [buildWhere, h]
  · intro h
    simp [buildWhere, h]

/-- Witness for the amended C4: an AND of a nil child and an empty OR
compiles to `("", [])` and produces a statement with no WHERE keyword; a
non-empty fragment does get a WHERE. -/
theorem C4_empty_combinator_and_where_witness :
    parseCond (.comb .cAnd (.cons .null (.cons (.comb .cOr .nil) .nil))) 1 = ("", [], 1) ∧
    buildWhere (.comb .cAnd (.cons .null (.cons (.comb .cOr .nil) .nil)))
      "DELETE FROM %s" none ["t"] = ("DELETE FROM t", []) ∧
    buildWhere (.leaf .eq "id" (.goInt64 3)) "DELETE FROM %s" none ["t"] =
      ("DELETE FROM t WHERE id = $1", [.goInt64 3]) := by
  refine ⟨?_, ?_, ?_⟩
  · have h := (C4_empty_combinator_and_where CombKind.cAnd
      (.cons .null (.cons (.comb .cOr .nil) .nil)) .null "" none [] 1).2.1 (by decide)
    have h2 : (parseCondList (.cons .null (.cons (.comb .cOr .nil) .nil)) 1).2.2 = 1 := by
      decide
    rw [h2] at h
    exact h
  · have h := (C4_empty_combinator_and_where CombKind.cAnd .nil
      (.comb .cAnd (.cons .null (.cons (.comb .cOr .nil) .nil)))
      "DELETE FROM %s" none ["t"] 1).2.2.2.1 (by decide)
    rw [h]
    decide
  · have h := (C4_empty_combinator_and_where CombKind.cAnd .nil
      (.leaf .eq "id" (.goInt64 3))
      "DELETE FROM %s" none ["t"] 1).2.2.2.2 (by decide)
    rw [h]
    decide

/-- C8: a leaf comparison of each of the six supported kinds advances the
counter by one, emits `"<property> <symbol> $<position>"` with the position
taken before the increment (`$n` when the counter was `n`), returns the
leaf's bound value as a single-element list, and the six kinds map to the
symbols `=`, `<>`, `<`, `<=`, `>`, `>=` respectively. -/
theorem C8_leaf_compilation (p : String) (v : GoVal) (n : Nat) :
    parseCond (.leaf .eq p v) n = (p ++ " = $" ++ itoa n, [v], n + 1) ∧
    parseCond (.leaf .neq p v) n = (p ++ " <> $" ++ itoa n, [v], n + 1) ∧
    parseCond (.leaf .lt p v) n = (p ++ " < $" ++ itoa n, [v], n + 1) ∧
    parseCond (.leaf .lte p v) n = (p ++ " <= $" ++ itoa n, [v], n + 1) ∧
    parseCond (.leaf .gt p v) n = (p ++ " > $" ++ itoa n, [v], n + 1) ∧
    parseCond (.leaf .gte p v) n = (p ++ " >= $" ++ itoa n, [v], n + 1) := by
  refine ⟨?_, ?_, ?_, ?_, ?_, ?_⟩ <;> simp [parseCond, parseRegularCond]

/-- C9: a leaf comparison whose kind is not one of the six supported
operators compiles to the empty fragment with the single value `nil`
(whatever bound value the leaf carries), the counter still advancing; the
compiler is a total function with no error channel, so nothing is reported
to the caller — the miscompilation is silent. -/
theorem C9_unsupported_leaf_silent (p : String) (v : GoVal) (n : Nat) :
    parseCond (.leaf .unsupported p v) n = ("", [GoVal.goNil], n + 1) := by
  simp [parseCond, parseRegularCond]

/-- C10: compiling any leaf comparison — supported or not — advances the
shared counter by exactly one; an unsupported leaf emits no text, so a
later leaf in the same pass is numbered one higher than the emitted text
accounts for: in `AND(<unsupported>, Eq(q,w))` starting at `n`, the
supported leaf is rendered with position `n + 1`. -/
theorem C10_unsupported_consumes_position (k : LeafKind) (p q : String)
    (v w : GoVal) (n : Nat) :
    (parseCond (.leaf k p v) n).2.2 = n + 1 ∧
    (parseCond (.leaf .unsupported p v) n).1 = "" ∧
    (parseCond (.comb .cAnd (.cons (.leaf .unsupported p v)
        (.cons (.leaf .eq q w) .nil))) n).2 = ([GoVal.goNil, w], n + 2) ∧
    (parseCond (.comb .cAnd (.cons (.leaf .unsupported p v)
        (.cons (.leaf .eq q w) .nil))) n).1 =
      "(" ++ " AND " ++ q ++ " = $" ++ itoa (n + 1) ++ ")" := by
  refine ⟨?_, rfl, ?_, ?_⟩
  · cases k <;> simp [parseCond, parseRegularCond]
  · simp [parseCond, parseCondList, parseRegularCond]
  · apply String.ext
    have h0 : (parseCond (.comb .cAnd (.cons (.leaf .unsupported p v)
        (.cons (.leaf .eq q w) .nil))) n).1 =
        "(" ++ goJoin " AND " ["", q ++ " = $" ++ itoa (n + 1)] ++ ")" := by
      simp [parseCond, parseCondList, parseRegularCond]
      rfl
    rw [h0]
    simp [goJoin, String.data_append]

/-- C2 counterexample: with zero assignments Go's `range` loop never
assigns its iteration variable, so `buildUpdateProps` returns cursor
`0 + 2 = 2` and the WHERE fragment of `update(store, Eq(id,7))` is
`"id = $2"` with bound list `[7]` — the placeholder is `$2`, not the
`$1 = $(j+1)` the claim requires at `j = 0`. -/
theorem C2_counterexample :
    (buildUpdateProps []).1 = 2 ∧
    updateQuery "t" (.leaf .eq "id" (.goInt64 7)) [] =
      ("UPDATE t SET  WHERE id = $2", [.goInt64 7]) ∧
    extractPlaceholders (parseCond (.leaf .eq "id" (.goInt64 7)) 2).1 = [2] ∧
    List.range' (0 + 1) 1 = [1] ∧ ([2] : List Nat) ≠ [1] := by
  decide

/-- C2 amended: for every Update with `j ≥ 1` assignments and a condition
whose leaves are all supported (and dollar-free), the continuation cursor is
`j + 1`, the bound-value list is the SET values followed by the WHERE values
in that order with length `j + k`, and the WHERE fragment's placeholders are
numbered `j+1 .. j+k`.  (At `j = 0` the cursor is 2, see the
counterexample.) -/
theorem C2_update_placeholders (storeName : String) (c : Cond)
    (values : List UpdVal) (hv : values ≠ [])
    (hsup : allSupported c = true) (hnd : noDollar c = true) :
    (buildUpdateProps values).1 = values.length + 1 ∧
    (updateQuery storeName c values).2 =
      values.map (fun v => v.val) ++ leafVals c ∧
    (updateQuery storeName c values).2.length = values.length + numLeaves c ∧
    extractPlaceholders (parseCond c (values.length + 1)).1 =
      List.range' (values.length + 1) (numLeaves c) := by
  have hcur := buildUpdateProps_cursor values hv
  obtain ⟨h1, h2, h3⟩ := parseCond_spec c (values.length + 1) hsup hnd
  have hq : (updateQuery storeName c values).2 =
      values.map (fun v => v.val) ++ (parseCond c (buildUpdateProps values).1).2.1 := rfl
  have hq2 : (updateQuery storeName c values).2 =
      values.map (fun v => v.val) ++ leafVals c := by
    rw [hq, hcur, h1]
  refine ⟨hcur, hq2, ?_, h3⟩
  rw [hq2]
  simp [numLeaves]

/-- Witness for the amended C2 at the specification's example
`update(store, Eq(id,7), Set(name,"Bob"))`: SET `name = $1`, WHERE
`id = $2`, values `["Bob", 7]`. -/
theorem C2_update_placeholders_witness :
    updateQuery "users" (.leaf .eq "id" (.goInt64 7)) [⟨"name", .goString "Bob"⟩] =
      ("UPDATE users SET name = $1 WHERE id = $2", [.goString "Bob", .goInt64 7]) ∧
    (buildUpdateProps [(⟨"name", .goString "Bob"⟩ : UpdVal)]).1 = 2 ∧
    extractPlaceholders (parseCond (.leaf .eq "id" (.goInt64 7)) 2).1 = [2] := by
  have h := C2_update_placeholders "users" (.leaf .eq "id" (.goInt64 7))
    [⟨"name", .goString "Bob"⟩] (by decide) (by decide) (by decide)
  exact ⟨by decide, h.1, h.2.2.2⟩

/-- C5 (code bug): the emptiness test `isPkEmpty` is supposed to be total
over the handled primary-key types, but the multi-type case arms assert only
the widest type of each arm (`pk.(int64)`, `pk.(uint64)`, `pk.(float64)`),
so every narrower dynamic type panics (`none`): `int`, `int8`, `int16`,
`int32`, `uint`, `uint8`, `uint16`, `uint32` and `float32` all fail even on
their zero values, while `string`, `int64`, `uint64` and `float64` are
decided correctly. -/
theorem C5_isPkEmpty_panics :
    isPkEmpty (.goInt 0) = none ∧
    isPkEmpty (.goInt8 0) = none ∧
    isPkEmpty (.goInt16 0) = none ∧
    isPkEmpty (.goInt32 0) = none ∧
    isPkEmpty (.goUint 0) = none ∧
    isPkEmpty (.goUint8 0) = none ∧
    isPkEmpty (.goUint16 0) = none ∧
    isPkEmpty (.goUint32 0) = none ∧
    isPkEmpty (.goFloat32 0) = none ∧
    isPkEmpty (.goInt64 0) = some true ∧
    isPkEmpty (.goInt64 7) = some false ∧
    isPkEmpty (.goString "") = some true ∧
    isPkEmpty (.goString "x") = some false ∧
    isPkEmpty (.goUint64 0) = some true ∧
    isPkEmpty (.goFloat64 0) = some true := by
  decide

/-- C6: for a record with one pk-flagged property and positionally matching
property/value lists: when the pk is empty (serial), the INSERT's column
list and bound-value list both exclude the primary key, the remaining
values keeping their property order; when the pk is non-empty, the column
list includes the pk column and the bound-value list is exactly the
record's values, the pk among them unchanged.  In both cases the value the
statement returns is scanned into the record's primary-key destination. -/
theorem C6_put_pk_handling (m : Model) (r : GoVal)
    (hlen : m.props.length = m.vals.length)
    (hpk : (m.props.filter (fun p => p.IsPk)).length = 1) :
    (isPkEmpty m.pk = some true →
      putStatement m = some
        ("INSERT INTO " ++ m.storeName ++ " (" ++
           goJoin ", " ((m.props.filter (fun p => !p.IsPk)).map (fun p => p.Name)) ++
           ") VALUES (" ++
           goJoin ", " ((List.range' 1 (m.vals.length - 1)).map (fun i => "$" ++ itoa i)) ++
           ") RETURNING " ++ m.pkPropName,
         ((m.props.zip m.vals).filter (fun pv => !pv.1.IsPk)).map (fun pv => pv.2))) ∧
    (isPkEmpty m.pk = some false →
      putStatement m = some
        ("INSERT INTO " ++ m.storeName ++ " (" ++
           goJoin ", " (m.props.map (fun p => p.Name)) ++
           ") VALUES (" ++
           goJoin ", " ((List.range' 1 m.vals.length).map (fun i => "$" ++ itoa i)) ++
           ") RETURNING " ++ m.pkPropName,
         m.vals)) ∧
    (putScan m r).pk = r := by
  have hlen1 : 1 ≤ m.props.length := by
    have := List.length_filter_le (fun p => p.IsPk) m.props
    omega
  refine ⟨?_, ?_, rfl⟩
  · intro hempty
    have hcols := buildQueryProperties_serial m.props hpk
    have hvals := serialVals_eq_filter m.props m.vals hlen
    have hph := buildInsertPlaceholders_nonneg ((m.vals.length : Int) - 1) (by omega)
    have htn : ((m.vals.length : Int) - 1).toNat = m.vals.length - 1 := by omega
    rw [htn] at hph
    have h1 : putStatement m = putStatementCore m true := by
      simp [putStatement, hempty]
    have h2 : putStatementCore m true =
        (match buildQueryProperties m.props true,
               buildInsertPlaceholders ((m.vals.length : Int) - 1) with
         | some cols, some ph =>
             (match serialVals m.props m.vals with
              | none => none
              | some values =>
                  some (goSprintf "INSERT INTO %s (%s) VALUES (%s) RETURNING %s"
                    [m.storeName, cols, ph, m.pkPropName], values))
         | _, _ => none) := rfl
    rw [h1, h2, hcols, hph, hvals]
    simp only []
    rw [goSprintf_insert]
  · intro hfull
    have hcols := buildQueryProperties_false m.props
    have hph := buildInsertPlaceholders_nonneg ((m.vals.length : Int) - 0) (by omega)
    have htn : ((m.vals.length : Int) - 0).toNat = m.vals.length := by omega
    rw [htn] at hph
    have h1 : putStatement m = putStatementCore m false := by
      simp [putStatement, hfull]
    have h2 : putStatementCore m false =
        (match buildQueryProperties m.props false,
               buildInsertPlaceholders ((m.vals.length : Int) - 0) with
         | some cols, some ph =>
             (match some m.vals with
              | none => none
              | some values =>
                  some (goSprintf "INSERT INTO %s (%s) VALUES (%s) RETURNING %s"
                    [m.storeName, cols, ph, m.pkPropName], values))
         | _, _ => none) := rfl
    rw [h1, h2, hcols, hph]
    simp only []
    rw [goSprintf_insert]

/-- Witness for C6: a two-column record with an empty `int64` pk omits `id`
from columns and values and a pre-set pk keeps it; the returned key lands in
the pk destination. -/
theorem C6_put_pk_handling_witness :
    putStatement ⟨"users", [⟨"id", true⟩, ⟨"name", false⟩],
        [.goInt64 0, .goString "Bob"], .goInt64 0, "id"⟩ =
      some ("INSERT INTO users (name) VALUES ($1) RETURNING id", [.goString "Bob"]) ∧
    putStatement ⟨"users", [⟨"id", true⟩, ⟨"name", false⟩],
        [.goInt64 7, .goString "Bob"], .goInt64 7, "id"⟩ =
      some ("INSERT INTO users (id, name) VALUES ($1, $2) RETURNING id",
        [.goInt64 7, .goString "Bob"]) ∧
    (putScan ⟨"users", [⟨"id", true⟩, ⟨"name", false⟩],
        [.goInt64 0, .goString "Bob"], .goInt64 0, "id"⟩ (.goInt64 42)).pk = .goInt64 42 := by
  refine ⟨?_, ?_, ?_⟩
  · have h := (C6_put_pk_handling ⟨"users", [⟨"id", true⟩, ⟨"name", false⟩],
        [.goInt64 0, .goString "Bob"], .goInt64 0, "id"⟩ (.goInt64 42)
        (by decide) (by decide)).1 (by decide)
    rw [h]
    decide
  · have h := (C6_put_pk_handling ⟨"users", [⟨"id", true⟩, ⟨"name", false⟩],
        [.goInt64 7, .goString "Bob"], .goInt64 7, "id"⟩ (.goInt64 42)
        (by decide) (by decide)).2.1 (by decide)
    rw [h]
    decide
  · exact (C6_put_pk_handling ⟨"users", [⟨"id", true⟩, ⟨"name", false⟩],
        [.goInt64 0, .goString "Bob"], .goInt64 0, "id"⟩ (.goInt64 42)
        (by decide) (by decide)).2.2

/-- C7: the Find query ends with exactly `" LIMIT <limit> OFFSET <offset>"`
when `limit > 0`, and for `limit ≤ 0` it is exactly the SELECT/WHERE
statement with no LIMIT/OFFSET text appended — independent of the offset
argument. -/
theorem C7_find_limit_offset (store : StoreModel) (c : Cond)
    (limit offset offset2 : Int) :
    (0 < limit →
      findQuery store c limit offset = some
        ((buildWhere c "SELECT %s FROM %s" none
            [goJoin ", " (store.props.map (fun p => p.Name)), store.name]).1 ++
          " LIMIT " ++ itoaInt limit ++ " OFFSET " ++ itoaInt offset,
         (buildWhere c "SELECT %s FROM %s" none
            [goJoin ", " (store.props.map (fun p => p.Name)), store.name]).2)) ∧
    (limit ≤ 0 →
      findQuery store c limit offset = some
        (buildWhere c "SELECT %s FROM %s" none
          [goJoin ", " (store.props.map (fun p => p.Name)), store.name]) ∧
      findQuery store c limit offset = findQuery store c limit offset2) := by
  have hb := buildQueryProperties_false store.props
  constructor
  · intro h
    simp [findQuery, hb, h]
  · intro h
    have hnot : ¬ (0 < limit) := by omega
    constructor <;> simp [findQuery, hb, hnot]

/-- Witness for C7: `find(store, Eq(age,30), 5, 10)` appends exactly
`" LIMIT 5 OFFSET 10"`; with limit 0 the query is the bare SELECT/WHERE and
ignores the offset argument. -/
theorem C7_find_limit_offset_witness :
    findQuery ⟨"people", [⟨"age", false⟩]⟩ (.leaf .eq "age" (.goInt64 30)) 5 10 =
      some ("SELECT age FROM people WHERE age = $1 LIMIT 5 OFFSET 10", [.goInt64 30]) ∧
    findQuery ⟨"people", [⟨"age", false⟩]⟩ (.leaf .eq "age" (.goInt64 30)) 0 10 =
      findQuery ⟨"people", [⟨"age", false⟩]⟩ (.leaf .eq "age" (.goInt64 30)) 0 99 ∧
    findQuery ⟨"people", [⟨"age", false⟩]⟩ .null 0 0 =
      some ("SELECT age FROM people", []) := by
  refine ⟨?_, ?_, ?_⟩
  · have h := (C7_find_limit_offset ⟨"people", [⟨"age", false⟩]⟩
      (.leaf .eq "age" (.goInt64 30)) 5 10 0).1 (by norm_num)
    rw [h]
    decide
  · exact ((C7_find_limit_offset ⟨"people", [⟨"age", false⟩]⟩
      (.leaf .eq "age" (.goInt64 30)) 0 10 99).2 (by norm_num)).2
  · have h := ((C7_find_limit_offset ⟨"people", [⟨"age", false⟩]⟩
      .null 0 0 0).2 (by norm_num)).1
    rw [h]
    decide

end SkyormPostgres
